import Mathlib

/-!
Verification of the reader concurrency semaphore
(`src/reader_concurrency_semaphore.cc`).

The development shallowly embeds the data model and the operations of the
semaphore: `reader_resources` (the two-dimensional slot/memory resource
vector), the semaphore state, `signal` with its wake loop, `wait_admission`
with its queue-overload check and its inactive-read eviction loop,
the inactive-read registry operations, permits, memory units and the
tracking file's bulk-read path.  Machine integers (`int`, `ssize_t`,
`size_t`, `uint64_t`) are modelled as `Int`/`Nat`: none of the modelled
arithmetic is intended to wrap, and the quantities involved stay far from
the 64-bit boundaries.

Functions whose bodies live in the repository's header (which is not part
of `src/`) are marked `Modelled from the spec:` in their doc comments and
follow the spec's description of them.  Everything else is translated
directly from the `.cc` source.
-/

/-- The resource vector of the semaphore: a slot count and a memory amount
in bytes (C++ `reader_resources` with `int count` and `ssize_t memory`). -/
structure reader_resources where
  count : Int
  memory : Int
deriving Repr, DecidableEq

instance : Add reader_resources :=
  ⟨fun a b => ⟨a.count + b.count, a.memory + b.memory⟩⟩

instance : Sub reader_resources :=
  ⟨fun a b => ⟨a.count - b.count, a.memory - b.memory⟩⟩

@[simp] theorem reader_resources.add_count (a b : reader_resources) :
    (a + b).count = a.count + b.count := rfl

@[simp] theorem reader_resources.add_memory (a b : reader_resources) :
    (a + b).memory = a.memory + b.memory := rfl

@[simp] theorem reader_resources.sub_count (a b : reader_resources) :
    (a - b).count = a.count - b.count := rfl

@[simp] theorem reader_resources.sub_memory (a b : reader_resources) :
    (a - b).memory = a.memory - b.memory := rfl

/-- Sum of a list of resource vectors. -/
def sum_res (l : List reader_resources) : reader_resources :=
  l.foldr (· + ·) ⟨0, 0⟩

@[simp] theorem sum_res_nil : sum_res [] = ⟨0, 0⟩ := rfl

@[simp] theorem sum_res_cons (x : reader_resources) (l : List reader_resources) :
    sum_res (x :: l) = x + sum_res l := rfl

/-- Modelled from the spec: `may_proceed(r)` of the semaphore header
(not present under `src/`), defined there as
`(r.count ≤ _resources.count) ∧ (_resources.memory > 0 ∨ r.memory = 0)`:
slots are hard-capped, memory is soft (any positive headroom admits). -/
def may_proceed (avail r : reader_resources) : Bool :=
  decide (r.count ≤ avail.count) && (decide (0 < avail.memory) || decide (r.memory = 0))

/-- Modelled from the spec: `has_available_units(r)` of the header is the
same predicate as `may_proceed`, applied when waking queued waiters. -/
def has_available_units (avail r : reader_resources) : Bool :=
  may_proceed avail r

theorem may_proceed_iff (avail r : reader_resources) :
    may_proceed avail r = true ↔
      (r.count ≤ avail.count ∧ (0 < avail.memory ∨ r.memory = 0)) := by
  simp [may_proceed]

/-- A queued admission request: the reserved resources and the deadline
(C++ `entry` with its promise, resources and timeout; the promise is
represented by the admitted-waiter lists the operations return). -/
structure wait_entry where
  res : reader_resources
  deadline : Nat
deriving Repr, DecidableEq

/-- The shared state behind a bound permit (C++ `reader_permit::impl`):
the resources debited at admission, credited back on destruction. -/
structure permit_impl where
  base_cost : reader_resources
deriving Repr, DecidableEq

/-- The state of a `reader_concurrency_semaphore`.  Inactive reads are an
ordered map id → reader, represented as an id-sorted association list
(ids are handed out from the monotonically increasing `next_id`, so
appending on registration keeps the list sorted and the head is the
lowest id, matching `std::map::begin`).  A registered reader is
identified by an opaque tag (`Nat`) used in eviction event traces. -/
structure reader_concurrency_semaphore where
  resources : reader_resources
  wait_list : List wait_entry
  inactive_reads : List (Nat × Nat)
  next_id : Nat
  max_queue_length : Nat
  name : String
  prethrow_set : Bool
  population : Int
  permit_based_evictions : Int
deriving Repr, DecidableEq

/-- The wake loop of `signal`: starting from the (already credited)
available resources, admit waiters from the front of the list while the
head's reserved resources fit, debiting each admitted waiter's resources
and completing it with a permit whose `base_cost` is those resources.
Returns the final resources, the remaining wait list, and the admitted
waiters paired with their permits, in completion order. -/
def wake_loop : reader_resources → List wait_entry →
    reader_resources × List wait_entry × List (wait_entry × permit_impl)
  | res, [] => (res, [], [])
  | res, e :: rest =>
    if has_available_units res e.res then
      let out := wake_loop (res - e.res) rest
      (out.1, out.2.1, (e, ⟨e.res⟩) :: out.2.2)
    else
      (res, e :: rest, [])

/-- `reader_concurrency_semaphore::signal(r)`: credit `r`, then run the
wake loop over the wait list.  Returns the new state and the list of
waiters completed by this call, in completion order. -/
def reader_concurrency_semaphore.signal (s : reader_concurrency_semaphore)
    (r : reader_resources) :
    reader_concurrency_semaphore × List (wait_entry × permit_impl) :=
  let out := wake_loop (s.resources + r) s.wait_list
  ({ s with resources := out.1, wait_list := out.2.1 }, out.2.2)

/-- Events recorded by the registry-mutating eviction paths: `erased id`
when an entry is removed from `_inactive_reads`, `evicted id` when that
entry's `evict()` callback is invoked.  The relative order of the two
events for one entry is what claim C7 is about. -/
inductive registry_event where
  | erased (id : Nat)
  | evicted (id : Nat)
deriving Repr, DecidableEq

/-- The eviction loop of `wait_admission`: while the request does not fit
and the registry is non-empty, erase the lowest-id entry and then invoke
its `evict()` callback.  The callback makes the evicted reader drop its
permit, which calls `signal`; `gain tag` is the resource credit this
produces for the reader `tag` (Modelled from the spec: the wake loop
inside that nested `signal` is a no-op because the wait list is empty
whenever the registry is non-empty, so the callback's effect on the
semaphore is a plain credit).  Returns the final resources, the remaining
registry, the event trace and the number of evictions. -/
def evict_loop (gain : Nat → reader_resources) (r : reader_resources) :
    reader_resources → List (Nat × Nat) →
    reader_resources × List (Nat × Nat) × List registry_event × Nat
  | res, [] => (res, [], [], 0)
  | res, (id, tag) :: rest =>
    if may_proceed res r then
      (res, (id, tag) :: rest, [], 0)
    else
      let out := evict_loop gain r (res + gain tag) rest
      (out.1, out.2.1, .erased id :: .evicted id :: out.2.2.1, out.2.2.2 + 1)

/-- The result of `wait_admission`: a failed future carrying the overload
message, an immediately ready permit, or a queued request. -/
inductive admission_result where
  | overload (msg : String)
  | ready (p : permit_impl)
  | queued
deriving Repr, DecidableEq

/-- Everything observable about one `wait_admission` call: its result, the
state it leaves behind, how many times the pre-throw hook ran, and the
registry event trace of its eviction loop. -/
structure admission_outcome where
  result : admission_result
  state : reader_concurrency_semaphore
  prethrow_count : Nat
  trace : List registry_event
deriving Repr, DecidableEq

/-- `reader_concurrency_semaphore::wait_admission(memory, timeout)`:
reject with the overload error when the wait list is at capacity
(invoking the pre-throw hook if set), otherwise build `r = {1, memory}`,
evict inactive reads while `r` does not fit, then either debit `r` and
return a ready permit, or append a wait entry carrying `r` and the
deadline. -/
def reader_concurrency_semaphore.wait_admission
    (s : reader_concurrency_semaphore) (gain : Nat → reader_resources)
    (memory : Nat) (deadline : Nat) : admission_outcome :=
  if s.max_queue_length ≤ s.wait_list.length then
    { result := .overload (s.name ++ ": restricted mutation reader queue overload")
      state := s
      prethrow_count := if s.prethrow_set then 1 else 0
      trace := [] }
  else
    let r : reader_resources := ⟨1, (memory : Int)⟩
    let out := evict_loop gain r s.resources s.inactive_reads
    let s' : reader_concurrency_semaphore :=
      { s with resources := out.1
               inactive_reads := out.2.1
               permit_based_evictions := s.permit_based_evictions + (out.2.2.2 : Int)
               population := s.population - (out.2.2.2 : Int) }
    if may_proceed s'.resources r then
      { result := .ready ⟨r⟩
        state := { s' with resources := s'.resources - r }
        prethrow_count := 0
        trace := out.2.2.1 }
    else
      { result := .queued
        state := { s' with wait_list := s'.wait_list ++ [⟨r, deadline⟩] }
        prethrow_count := 0
        trace := out.2.2.1 }

/-- `reader_concurrency_semaphore::consume_resources(r)`: debit `r`
unconditionally and hand out a permit with `base_cost = r`. -/
def reader_concurrency_semaphore.consume_resources
    (s : reader_concurrency_semaphore) (r : reader_resources) :
    permit_impl × reader_concurrency_semaphore :=
  (⟨r⟩, { s with resources := s.resources - r })

/-- A handle into the inactive-read registry: either the empty handle or a
handle carrying a registry id. -/
inductive inactive_read_handle where
  | empty
  | handle (id : Nat)
deriving Repr, DecidableEq

/-- Everything observable about one `register_inactive_read` call: the
returned handle, the new state, and the readers whose `evict()` callback
the call invoked (in invocation order). -/
structure register_outcome where
  handle : inactive_read_handle
  state : reader_concurrency_semaphore
  evicted_readers : List Nat
deriving Repr, DecidableEq

/-- `reader_concurrency_semaphore::register_inactive_read(ir)`: with an
empty wait list, insert the reader under `next_id` (then increment it),
bump the population statistic and return a handle carrying the id;
otherwise invoke the reader's `evict()` once, bump the eviction
statistic, and return the empty handle. -/
def reader_concurrency_semaphore.register_inactive_read
    (s : reader_concurrency_semaphore) (tag : Nat) : register_outcome :=
  if s.wait_list.isEmpty then
    { handle := .handle s.next_id
      state := { s with inactive_reads := s.inactive_reads ++ [(s.next_id, tag)]
                        next_id := s.next_id + 1
                        population := s.population + 1 }
      evicted_readers := [] }
  else
    { handle := .empty
      state := { s with permit_based_evictions := s.permit_based_evictions + 1 }
      evicted_readers := [tag] }

/-- `reader_concurrency_semaphore::unregister_inactive_read(irh)`: if the
handle's id is registered, remove the entry, decrement the population
statistic and return the owned reader; otherwise return nothing. -/
def reader_concurrency_semaphore.unregister_inactive_read
    (s : reader_concurrency_semaphore) (id : Nat) :
    Option Nat × reader_concurrency_semaphore :=
  match s.inactive_reads.find? (fun e => e.1 = id) with
  | some e =>
    (some e.2, { s with inactive_reads := s.inactive_reads.filter (fun x => ¬ x.1 = id)
                        population := s.population - 1 })
  | none => (none, s)

/-- Everything observable about one `try_evict_one_inactive_read` call:
whether an eviction happened, the new state, and the registry event
trace in program order.  NOTE the trace order transcribed from the
source: the code invokes `it->second->evict()` first and erases the
entry from `_inactive_reads` afterwards. -/
structure try_evict_outcome where
  happened : Bool
  state : reader_concurrency_semaphore
  trace : List registry_event
deriving Repr, DecidableEq

/-- `reader_concurrency_semaphore::try_evict_one_inactive_read()`: if the
registry is non-empty, take its lowest-id entry, call `evict()` on it,
erase it, update both statistics and return `true`. -/
def reader_concurrency_semaphore.try_evict_one_inactive_read
    (s : reader_concurrency_semaphore) : try_evict_outcome :=
  match s.inactive_reads with
  | [] => { happened := false, state := s, trace := [] }
  | (id, _tag) :: rest =>
    { happened := true
      state := { s with inactive_reads := rest
                        permit_based_evictions := s.permit_based_evictions + 1
                        population := s.population - 1 }
      trace := [.evicted id, .erased id] }

/-- Modelled from the spec: `consume_memory(m)` of the header debits `m`
from the memory dimension without running the wake loop. -/
def reader_concurrency_semaphore.consume_memory
    (s : reader_concurrency_semaphore) (m : Int) : reader_concurrency_semaphore :=
  { s with resources := ⟨s.resources.count, s.resources.memory - m⟩ }

/-- Modelled from the spec: `signal_memory(m)` of the header credits `m`
on the memory dimension and runs the wake loop, i.e. it is
`signal({0, m})`. -/
def reader_concurrency_semaphore.signal_memory
    (s : reader_concurrency_semaphore) (m : Int) :
    reader_concurrency_semaphore × List (wait_entry × permit_impl) :=
  s.signal ⟨0, m⟩

/-- Memory-accounting events emitted by `memory_units` operations, in
program order: `consume m` for `consume_memory(m)` and `credit m` for
`signal_memory(m)`. -/
inductive memory_event where
  | consume (m : Int)
  | credit (m : Int)
deriving Repr, DecidableEq

/-- `reader_permit::memory_units`: a scoped memory charge.  `bound` is
whether `_semaphore` is non-null; `memory` is the held amount. -/
structure memory_units where
  bound : Bool
  memory : Int
deriving Repr, DecidableEq

/-- The `memory_units(semaphore, memory)` constructor: debit `memory` via
`consume_memory` when bound to a semaphore and the amount is non-zero.
Returns the new units, the new semaphore state and the event trace. -/
def memory_units.construct (bound : Bool) (m : Int)
    (s : reader_concurrency_semaphore) :
    memory_units × reader_concurrency_semaphore × List memory_event :=
  if bound ∧ ¬ m = 0 then
    (⟨bound, m⟩, s.consume_memory m, [.consume m])
  else
    (⟨bound, m⟩, s, [])

/-- `memory_units::reset(memory)`: when bound, debit the new amount via
`consume_memory` and only then credit the old amount via `signal_memory`
(which runs the wake loop); finally store the new amount.  Unbound units
store the new amount without any accounting. -/
def memory_units.reset (u : memory_units) (m : Nat)
    (s : reader_concurrency_semaphore) :
    memory_units × reader_concurrency_semaphore × List memory_event :=
  if u.bound then
    (⟨u.bound, (m : Int)⟩, ((s.consume_memory (m : Int)).signal_memory u.memory).1,
      [.consume (m : Int), .credit u.memory])
  else
    (⟨u.bound, (m : Int)⟩, s, [])

/-- The `memory_units` destructor: `reset(0)` (Modelled from the spec:
the destructor calls `reset()` whose defaulted argument, declared in the
header, is `0`). -/
def memory_units.drop (u : memory_units) (s : reader_concurrency_semaphore) :
    reader_concurrency_semaphore × List memory_event :=
  let out := u.reset 0 s
  (out.2.1, out.2.2)

/-- A `reader_permit`: a possibly-null shared handle.  Modelled from the
spec for the default constructor (declared in the header): a
default-constructed permit has a null `_impl`, i.e. `impl = none`. -/
structure reader_permit where
  impl : Option permit_impl
deriving Repr, DecidableEq

/-- `no_reader_permit()`: the null permit, `reader_permit{}`. -/
def no_reader_permit : reader_permit := ⟨none⟩

/-- `reader_permit::release()`: the source dereferences `_impl`
unconditionally (`_impl->semaphore.signal(_impl->base_cost)`), so on a
null permit the call is a null-pointer dereference; this fault is
modelled as `none`.  On a bound permit: signal `base_cost`, then zero
it. -/
def reader_permit.release (p : reader_permit)
    (s : reader_concurrency_semaphore) :
    Option (reader_permit × reader_concurrency_semaphore) :=
  match p.impl with
  | none => none
  | some i => some (⟨some ⟨⟨0, 0⟩⟩⟩, (s.signal i.base_cost).1)

/-- `reader_permit::get_memory_units(memory)`: construct memory units
bound to the permit's semaphore when the permit is non-null, and unbound
(inert) units otherwise. -/
def reader_permit.get_memory_units (p : reader_permit) (m : Nat)
    (s : reader_concurrency_semaphore) :
    memory_units × reader_concurrency_semaphore × List memory_event :=
  memory_units.construct p.impl.isSome (m : Int) s

/-- Dropping the last handle to a `reader_permit`: `impl::~impl` signals
`base_cost`; a null permit's drop does nothing. -/
def reader_permit.drop (p : reader_permit)
    (s : reader_concurrency_semaphore) : reader_concurrency_semaphore :=
  match p.impl with
  | none => s
  | some i => (s.signal i.base_cost).1

/-- Call-order events of `tracking_file_impl::dma_read_bulk`:
`alloc_units n` when `get_memory_units(range_size)` is evaluated into the
continuation's capture, `read_complete n` when the underlying read
resolves with a buffer of `n` bytes, `wrap_tracked n` when the buffer is
wrapped as a tracked buffer, `units_dropped n` when the continuation is
destroyed and the captured units are dropped. -/
inductive io_event where
  | alloc_units (n : Nat)
  | read_complete (buf_size : Nat)
  | wrap_tracked (n : Nat)
  | units_dropped (n : Nat)
deriving Repr, DecidableEq

/-- Everything observable about one `dma_read_bulk(offset, range_size)`
call on a tracking file whose underlying read returns a buffer of
`buf_size` bytes: the event trace up to the point the caller holds the
returned buffer, whether the buffer was wrapped, the memory units owned
by the tracked buffer's deleter, the semaphore state while the caller
holds the buffer, and the state after the caller drops it. -/
structure dma_run where
  trace : List io_event
  wrapped : Bool
  deleter_units : memory_units
  state_while_held : reader_concurrency_semaphore
  state_after_drop : reader_concurrency_semaphore
deriving Repr, DecidableEq

/-- Modelled from the spec: `make_tracked_temporary_buffer(buf, permit)`
of the header wraps `buf` in a buffer whose deleter owns memory units
obtained from `permit` for the buffer's size (the only size available to
it), released when the buffer is dropped.  Given the bound flag of the
permit and the buffer size, it returns the deleter's units and the new
semaphore state. -/
def make_tracked_temporary_buffer (bound : Bool) (buf_size : Nat)
    (s : reader_concurrency_semaphore) :
    memory_units × reader_concurrency_semaphore :=
  let out := memory_units.construct bound (buf_size : Int) s
  (out.1, out.2.1)

/-- `tracking_file_impl::dma_read_bulk(offset, range_size, pc)` with a
permit whose bound flag is `bound`, when the underlying read returns a
buffer of `buf_size` bytes: evaluate `units = _permit.get_memory_units(range_size)`
into the continuation's capture; when the read resolves, wrap the buffer
as a tracked one if the permit is non-null (null permits forward the
buffer unwrapped); return the buffer to the caller and destroy the
continuation, dropping the captured `units`; the deleter's units are
dropped only when the caller drops the buffer. -/
def dma_read_bulk (bound : Bool) (range_size buf_size : Nat)
    (s : reader_concurrency_semaphore) : dma_run :=
  let cap := memory_units.construct bound (range_size : Int) s
  let wrap := if bound then make_tracked_temporary_buffer bound buf_size cap.2.1
              else (⟨false, 0⟩, cap.2.1)
  let held := (cap.1.drop wrap.2).1
  { trace := [.alloc_units range_size, .read_complete buf_size]
             ++ (if bound then [.wrap_tracked buf_size] else [])
             ++ [.units_dropped range_size]
    wrapped := bound
    deleter_units := wrap.1
    state_while_held := held
    state_after_drop := (wrap.1.drop held).1 }

/-- One exposed operation of the semaphore subsystem, for the reachable
state machine.  Permits live in a side list indexed by position;
`drop_permit`/`release_permit` act on that list.  `raw_signal` is a bare
`signal(r)` call with an arbitrary argument.  The resource credit of an
eviction callback is accounted by the `drop_permit`/`release_permit`
step of the evicted reader's permit. -/
inductive step where
  | wait_admission (memory deadline : Nat)
  | consume_resources (r : reader_resources)
  | drop_permit (i : Nat)
  | release_permit (i : Nat)
  | consume_memory (m : Nat)
  | signal_memory (m : Nat)
  | raw_signal (r : reader_resources)
  | register_inactive (tag : Nat)
  | unregister_inactive (id : Nat)
  | try_evict
  | timeout_waiter (i : Nat)
deriving Repr, DecidableEq

/-- A semaphore together with the permits currently alive against it
(their shared `impl` records, in creation order). -/
structure machine_state where
  sem : reader_concurrency_semaphore
  perms : List permit_impl
deriving Repr, DecidableEq

/-- Run `signal(r)` on a machine state: waiters admitted by the wake loop
become live permits. -/
def machine_state.do_signal (fs : machine_state) (r : reader_resources) :
    machine_state :=
  let out := fs.sem.signal r
  ⟨out.1, fs.perms ++ out.2.map Prod.snd⟩

/-- Apply one exposed operation to a machine state.  `gain` gives the
eviction-loop credit of `wait_admission` (zero when eviction callbacks
are accounted by separate permit-drop steps). -/
def apply_step (gain : Nat → reader_resources) (st : step)
    (fs : machine_state) : machine_state :=
  match st with
  | .wait_admission m d =>
    let out := fs.sem.wait_admission gain m d
    match out.result with
    | .ready p => ⟨out.state, fs.perms ++ [p]⟩
    | _ => ⟨out.state, fs.perms⟩
  | .consume_resources r =>
    let out := fs.sem.consume_resources r
    ⟨out.2, fs.perms ++ [out.1]⟩
  | .drop_permit i =>
    if h : i < fs.perms.length then
      machine_state.do_signal ⟨fs.sem, fs.perms.eraseIdx i⟩
        (fs.perms.get ⟨i, h⟩).base_cost
    else fs
  | .release_permit i =>
    if h : i < fs.perms.length then
      let out := fs.sem.signal (fs.perms.get ⟨i, h⟩).base_cost
      ⟨out.1, (fs.perms.set i ⟨⟨0, 0⟩⟩) ++ out.2.map Prod.snd⟩
    else fs
  | .consume_memory m => ⟨fs.sem.consume_memory (m : Int), fs.perms⟩
  | .signal_memory m => fs.do_signal ⟨0, (m : Int)⟩
  | .raw_signal r => fs.do_signal r
  | .register_inactive tag => ⟨(fs.sem.register_inactive_read tag).state, fs.perms⟩
  | .unregister_inactive id => ⟨(fs.sem.unregister_inactive_read id).2, fs.perms⟩
  | .try_evict => ⟨(fs.sem.try_evict_one_inactive_read).state, fs.perms⟩
  | .timeout_waiter i => ⟨{ fs.sem with wait_list := fs.sem.wait_list.eraseIdx i }, fs.perms⟩

/-- Apply a sequence of operations. -/
def run_steps (gain : Nat → reader_resources) :
    List step → machine_state → machine_state
  | [], fs => fs
  | st :: rest, fs => run_steps gain rest (apply_step gain st fs)

/-- The usage contract of the exposed operations: `consume_resources` is
a fast path for callers that have already reserved out-of-band, so its
slot demand is non-negative and covered by the available count; `signal`
is not called bare (resources return only through permit release/drop
and memory-units credits). -/
def step_guard (st : step) (fs : machine_state) : Bool :=
  match st with
  | .consume_resources r =>
    decide (0 ≤ r.count) && decide (r.count ≤ fs.sem.resources.count)
  | .raw_signal _ => false
  | _ => true

/-- Apply a sequence of operations, failing when one violates the usage
contract. -/
def run_guarded (gain : Nat → reader_resources) :
    List step → machine_state → Option machine_state
  | [], fs => some fs
  | st :: rest, fs =>
    if step_guard st fs then run_guarded gain rest (apply_step gain st fs)
    else none

/-- A freshly constructed semaphore: all resources available, no waiters,
no inactive reads, no live permits, zeroed statistics. -/
def init_state (cap : reader_resources) (maxq : Nat) (nm : String)
    (pts : Bool) : machine_state :=
  ⟨⟨cap, [], [], 0, maxq, nm, pts, 0, 0⟩, []⟩

/-- The zero eviction credit, used when eviction callbacks' permit drops
are accounted as separate steps. -/
def no_gain : Nat → reader_resources := fun _ => ⟨0, 0⟩

/-- Two resource vectors with equal components are equal. -/
theorem reader_resources.ext_of (a b : reader_resources)
    (h1 : a.count = b.count) (h2 : a.memory = b.memory) : a = b := by
  cases a; cases b; simp_all

theorem reader_resources.sub_add_eq (a b c : reader_resources) :
    a - (b + c) = (a - b) - c := by
  apply reader_resources.ext_of <;> simp <;> ring

theorem reader_resources.add_zero_right (a : reader_resources) :
    a + (⟨0, 0⟩ : reader_resources) = a := by
  apply reader_resources.ext_of <;> simp

/-- Slot count of a sum of resource vectors. -/
theorem sum_res_count (l : List reader_resources) :
    (sum_res l).count = (l.map reader_resources.count).sum := by
  induction l with
  | nil => simp
  | cons x rest ih => simp [ih]

/-- The waiters admitted by the wake loop are exactly the removed front of
the wait list, in order. -/
theorem wake_loop_decomp (l : List wait_entry) : ∀ res : reader_resources,
    ((wake_loop res l).2.2.map Prod.fst) ++ (wake_loop res l).2.1 = l := by
  induction l with
  | nil => intro res; simp [wake_loop]
  | cons e rest ih =>
    intro res
    by_cases h : has_available_units res e.res
    · simp only [wake_loop, h, if_true, List.map_cons, List.cons_append, List.cons.injEq,
        true_and]
      exact ih (res - e.res)
    · simp [wake_loop, h]

/-- Each waiter admitted by the wake loop is completed with a permit whose
base cost is the waiter's reserved resources. -/
theorem wake_loop_base_cost (l : List wait_entry) : ∀ (res : reader_resources)
    (x : wait_entry × permit_impl), x ∈ (wake_loop res l).2.2 →
    x.2.base_cost = x.1.res := by
  induction l with
  | nil => intro res x hx; simp [wake_loop] at hx
  | cons e rest ih =>
    intro res x hx
    by_cases h : has_available_units res e.res
    · simp only [wake_loop, h, if_true, List.mem_cons] at hx
      rcases hx with hx | hx
      · subst hx; rfl
      · exact ih (res - e.res) x hx
    · simp [wake_loop, h] at hx

/-- The wake loop debits exactly the admitted waiters' reserved resources
from the (already credited) available resources. -/
theorem wake_loop_res (l : List wait_entry) : ∀ res : reader_resources,
    (wake_loop res l).1 = res - sum_res ((wake_loop res l).2.2.map (fun x => x.1.res)) := by
  induction l with
  | nil =>
    intro res
    apply reader_resources.ext_of <;> simp [wake_loop]
  | cons e rest ih =>
    intro res
    by_cases h : has_available_units res e.res
    · simp only [wake_loop, h, if_true, List.map_cons, sum_res_cons]
      rw [reader_resources.sub_add_eq]
      exact ih (res - e.res)
    · apply reader_resources.ext_of <;> simp [wake_loop, h]

/-- The wake loop never drives the slot count negative: each admission is
guarded by `has_available_units`. -/
theorem wake_loop_count_nonneg (l : List wait_entry) : ∀ res : reader_resources,
    0 ≤ res.count → 0 ≤ (wake_loop res l).1.count := by
  induction l with
  | nil => intro res h; simpa [wake_loop] using h
  | cons e rest ih =>
    intro res h
    by_cases hfit : has_available_units res e.res
    · have hle : e.res.count ≤ res.count :=
        ((may_proceed_iff res e.res).mp hfit).1
      simp only [wake_loop, hfit, if_true]
      exact ih (res - e.res) (by simp; omega)
    · simpa [wake_loop, hfit] using h

/-- When the wake loop stops, the wait list is empty or its head does not
fit the final available resources. -/
theorem wake_loop_head (l : List wait_entry) : ∀ res : reader_resources,
    (wake_loop res l).2.1 = [] ∨
    ∃ e rest, (wake_loop res l).2.1 = e :: rest ∧
      has_available_units (wake_loop res l).1 e.res = false := by
  induction l with
  | nil => intro res; left; simp [wake_loop]
  | cons e rest ih =>
    intro res
    by_cases h : has_available_units res e.res
    · simp only [wake_loop, h, if_true]
      exact ih (res - e.res)
    · right
      refine ⟨e, rest, by simp [wake_loop, h], ?_⟩
      simp only [wake_loop, h, if_false, Bool.false_eq_true]

/-- The eviction loop of `wait_admission` runs until the request fits or
the registry is exhausted. -/
theorem evict_loop_exit (gain : Nat → reader_resources) (r : reader_resources)
    (l : List (Nat × Nat)) : ∀ res : reader_resources,
    (evict_loop gain r res l).2.1 = [] ∨
    may_proceed (evict_loop gain r res l).1 r = true := by
  induction l with
  | nil => intro res; left; simp [evict_loop]
  | cons e rest ih =>
    intro res
    by_cases h : may_proceed res r
    · right
      obtain ⟨id, tag⟩ := e
      simp [evict_loop, h]
    · obtain ⟨id, tag⟩ := e
      simp only [evict_loop, h, if_false, Bool.false_eq_true]
      exact ih (res + gain (id, tag).2)

/-- With the zero eviction credit the eviction loop leaves the resources
untouched. -/
theorem evict_loop_no_gain_res (r : reader_resources) (l : List (Nat × Nat)) :
    ∀ res : reader_resources, (evict_loop no_gain r res l).1 = res := by
  induction l with
  | nil => intro res; simp [evict_loop]
  | cons e rest ih =>
    intro res
    by_cases h : may_proceed res r
    · obtain ⟨id, tag⟩ := e
      simp [evict_loop, h]
    · obtain ⟨id, tag⟩ := e
      simp only [evict_loop, h, if_false, Bool.false_eq_true]
      rw [show res + no_gain tag = res from reader_resources.add_zero_right res] at *
      exact ih res

/-- An empty registry leaves the eviction loop with nothing to do. -/
theorem evict_loop_nil (gain : Nat → reader_resources) (r res : reader_resources) :
    evict_loop gain r res [] = (res, [], [], 0) := rfl

/-- A demonstration semaphore at rest: capacity two slots and 1024 bytes,
nothing queued, nothing registered. -/
def demo_sem : reader_concurrency_semaphore :=
  ⟨⟨2, 1024⟩, [], [], 0, 10, "sem", false, 0, 0⟩

/-- A demonstration semaphore whose wait list is at its queue cap of one,
with the pre-throw hook set. -/
def demo_full : reader_concurrency_semaphore :=
  ⟨⟨1, 100⟩, [⟨⟨1, 10⟩, 0⟩], [], 0, 1, "rcs", true, 0, 0⟩

/-- C1: a `wait_admission(memory, deadline)` call made while the wait list
is shorter than the queue cap and the inactive-read registry is empty
returns an immediately ready permit with base cost `{1, memory}` and
debits exactly `{1, memory}` when the requirement fits
(`1 ≤ _resources.count` and (`_resources.memory > 0` or `memory = 0`)),
and otherwise debits nothing and appends a wait entry carrying
`{1, memory}` and the deadline. -/
theorem C1_wait_admission_fast_path (gain : Nat → reader_resources)
    (memory deadline : Nat) (s : reader_concurrency_semaphore)
    (hq : s.wait_list.length < s.max_queue_length)
    (hreg : s.inactive_reads = []) :
    ((1 ≤ s.resources.count ∧ (0 < s.resources.memory ∨ (memory : Int) = 0)) →
      (s.wait_admission gain memory deadline).result = .ready ⟨⟨1, (memory : Int)⟩⟩ ∧
      (s.wait_admission gain memory deadline).state.resources =
        s.resources - ⟨1, (memory : Int)⟩ ∧
      (s.wait_admission gain memory deadline).state.wait_list = s.wait_list) ∧
    (¬ (1 ≤ s.resources.count ∧ (0 < s.resources.memory ∨ (memory : Int) = 0)) →
      (s.wait_admission gain memory deadline).result = .queued ∧
      (s.wait_admission gain memory deadline).state.resources = s.resources ∧
      (s.wait_admission gain memory deadline).state.wait_list =
        s.wait_list ++ [⟨⟨1, (memory : Int)⟩, deadline⟩]) := by
  have hq' : ¬ s.max_queue_length ≤ s.wait_list.length := by omega
  constructor
  · intro hfit
    have hmp : may_proceed s.resources ⟨1, (memory : Int)⟩ = true :=
      (may_proceed_iff _ _).mpr ⟨hfit.1, hfit.2⟩
    simp [reader_concurrency_semaphore.wait_admission, hq', hreg, evict_loop_nil, hmp]
  · intro hfit
    have hmp : ¬ may_proceed s.resources ⟨1, (memory : Int)⟩ = true := by
      intro hc
      exact hfit ((may_proceed_iff _ _).mp hc)
    simp [reader_concurrency_semaphore.wait_admission, hq', hreg, evict_loop_nil, hmp]

/-- C1 witness: on the rested demonstration semaphore a request of 100
bytes is admitted immediately, debiting one slot and 100 bytes. -/
theorem C1_witness :
    (demo_sem.wait_admission no_gain 100 7).result = .ready ⟨⟨1, (100 : Int)⟩⟩ ∧
    (demo_sem.wait_admission no_gain 100 7).state.resources =
      demo_sem.resources - ⟨1, (100 : Int)⟩ ∧
    (demo_sem.wait_admission no_gain 100 7).state.wait_list = demo_sem.wait_list :=
  (C1_wait_admission_fast_path no_gain 100 7 demo_sem (by decide) rfl).1 (by decide)

/-- C2: a `wait_admission` call made while the wait list already holds at
least the queue cap fails with the overload error carrying the
semaphore's name, runs the pre-throw hook exactly once and only if it is
set, and leaves the whole state unchanged — nothing debited, nothing
evicted, nothing enqueued. -/
theorem C2_queue_overload (gain : Nat → reader_resources)
    (memory deadline : Nat) (s : reader_concurrency_semaphore)
    (hq : s.max_queue_length ≤ s.wait_list.length) :
    (s.wait_admission gain memory deadline).result =
      .overload (s.name ++ ": restricted mutation reader queue overload") ∧
    (s.wait_admission gain memory deadline).state = s ∧
    (s.wait_admission gain memory deadline).prethrow_count =
      (if s.prethrow_set then 1 else 0) ∧
    (s.wait_admission gain memory deadline).trace = [] := by
  simp [reader_concurrency_semaphore.wait_admission, hq]

/-- C2 witness: on the demonstration semaphore whose queue is at its cap,
a request fails with the overload error naming the semaphore, the set
pre-throw hook runs once, and the state is untouched. -/
theorem C2_witness :
    (demo_full.wait_admission no_gain 5 3).result =
      .overload ("rcs: restricted mutation reader queue overload") ∧
    (demo_full.wait_admission no_gain 5 3).state = demo_full ∧
    (demo_full.wait_admission no_gain 5 3).prethrow_count = 1 ∧
    (demo_full.wait_admission no_gain 5 3).trace = [] :=
  C2_queue_overload no_gain 5 3 demo_full (by decide)

/-- C3: after any `signal(r)`, the waiters completed inside the call are
exactly the removed front of the wait list in FIFO order, each completed
with a permit whose base cost is its reserved resources; those resources
are debited from the (credited) available resources; and afterwards the
wait list is empty or its head does not satisfy `has_available_units`. -/
theorem C3_signal_fifo (s : reader_concurrency_semaphore) (r : reader_resources) :
    ((s.signal r).2.map Prod.fst) ++ (s.signal r).1.wait_list = s.wait_list ∧
    (s.signal r).2.map (fun x => x.2.base_cost) =
      (s.signal r).2.map (fun x => x.1.res) ∧
    (s.signal r).1.resources =
      (s.resources + r) - sum_res ((s.signal r).2.map (fun x => x.1.res)) ∧
    ((s.signal r).1.wait_list = [] ∨
      ∃ e rest, (s.signal r).1.wait_list = e :: rest ∧
        has_available_units (s.signal r).1.resources e.res = false) := by
  refine ⟨?_, ?_, ?_, ?_⟩
  · exact wake_loop_decomp s.wait_list (s.resources + r)
  · exact List.map_congr_left
      (fun x hx => wake_loop_base_cost s.wait_list (s.resources + r) x hx)
  · exact wake_loop_res s.wait_list (s.resources + r)
  · exact wake_loop_head s.wait_list (s.resources + r)

/-- C4: `register_inactive_read` with an empty wait list inserts the
reader under the next id, increments it and the population, calls no
`evict()`, and returns a handle carrying the id; with a non-empty wait
list it invokes the reader's `evict()` exactly once, increments the
eviction counter, leaves the registry and population untouched, and
returns the empty handle. -/
theorem C4_register_inactive (tag : Nat) (s : reader_concurrency_semaphore) :
    (s.wait_list = [] →
      (s.register_inactive_read tag).handle = .handle s.next_id ∧
      (s.register_inactive_read tag).state.inactive_reads =
        s.inactive_reads ++ [(s.next_id, tag)] ∧
      (s.register_inactive_read tag).state.next_id = s.next_id + 1 ∧
      (s.register_inactive_read tag).state.population = s.population + 1 ∧
      (s.register_inactive_read tag).state.permit_based_evictions =
        s.permit_based_evictions ∧
      (s.register_inactive_read tag).evicted_readers = []) ∧
    (s.wait_list ≠ [] →
      (s.register_inactive_read tag).handle = .empty ∧
      (s.register_inactive_read tag).state.inactive_reads = s.inactive_reads ∧
      (s.register_inactive_read tag).state.population = s.population ∧
      (s.register_inactive_read tag).state.permit_based_evictions =
        s.permit_based_evictions + 1 ∧
      (s.register_inactive_read tag).evicted_readers = [tag]) := by
  constructor
  · intro h
    simp [reader_concurrency_semaphore.register_inactive_read, h]
  · intro h
    have hne : s.wait_list.isEmpty = false := by
      cases hw : s.wait_list with
      | nil => exact absurd hw h
      | cons a l => rfl
    simp [reader_concurrency_semaphore.register_inactive_read, hne]

/-- C4 witness: registering on the rested semaphore inserts under id 0
and returns the id-carrying handle; registering on the semaphore with a
waiter evicts the reader once and returns the empty handle. -/
theorem C4_witness :
    ((demo_sem.register_inactive_read 5).handle = .handle demo_sem.next_id ∧
     (demo_sem.register_inactive_read 5).state.inactive_reads =
       demo_sem.inactive_reads ++ [(demo_sem.next_id, 5)] ∧
     (demo_sem.register_inactive_read 5).state.next_id = demo_sem.next_id + 1 ∧
     (demo_sem.register_inactive_read 5).state.population = demo_sem.population + 1 ∧
     (demo_sem.register_inactive_read 5).state.permit_based_evictions =
       demo_sem.permit_based_evictions ∧
     (demo_sem.register_inactive_read 5).evicted_readers = []) ∧
    ((demo_full.register_inactive_read 5).handle = .empty ∧
     (demo_full.register_inactive_read 5).state.inactive_reads =
       demo_full.inactive_reads ∧
     (demo_full.register_inactive_read 5).state.population = demo_full.population ∧
     (demo_full.register_inactive_read 5).state.permit_based_evictions =
       demo_full.permit_based_evictions + 1 ∧
     (demo_full.register_inactive_read 5).evicted_readers = [5]) :=
  ⟨(C4_register_inactive 5 demo_sem).1 rfl,
   (C4_register_inactive 5 demo_full).2 (by decide)⟩

/-- C5 counterexample: `release()` on the null permit dereferences the
null `_impl` pointer (the source runs
`_impl->semaphore.signal(_impl->base_cost)` without a null check), so it
is not an inert no-op; the fault is modelled as `none`. -/
theorem C5_null_release_faults : no_reader_permit.release demo_sem = none := rfl

/-- C5 amended: on the null permit, `get_memory_units(m)` returns inert
unbound units, touches no semaphore state and emits no accounting
events; dropping the null permit leaves every semaphore state unchanged;
`release()`, however, faults (dereferences the null impl). -/
theorem C5_null_permit_inert (m : Nat) (s : reader_concurrency_semaphore) :
    (no_reader_permit.get_memory_units m s).1.bound = false ∧
    (no_reader_permit.get_memory_units m s).2.1 = s ∧
    (no_reader_permit.get_memory_units m s).2.2 = [] ∧
    ((no_reader_permit.get_memory_units m s).1.drop s).1 = s ∧
    no_reader_permit.drop s = s ∧
    no_reader_permit.release s = none := by
  refine ⟨?_, ?_, ?_, ?_, rfl, rfl⟩ <;>
    simp [no_reader_permit, reader_permit.get_memory_units, memory_units.construct,
      memory_units.drop, memory_units.reset]

/-- The experiment of claim C6: construct bound memory units for `m`
bytes, reset them to `m'`, then drop them.  Returns the final semaphore
state, the event trace of the reset and the event trace of the drop. -/
def memory_round_trip (m m' : Nat) (s : reader_concurrency_semaphore) :
    reader_concurrency_semaphore × List memory_event × List memory_event :=
  let c := memory_units.construct true (m : Int) s
  let r := c.1.reset m' c.2.1
  let d := r.1.drop r.2.1
  (d.1, r.2.2, d.2)

/-- C6: the round trip construct `m`, reset to `m'`, drop leaves the
semaphore's resources at their starting value (no waiter is admitted
meanwhile when the wait list is empty), and inside the reset the new
amount is debited strictly before the old amount is credited (the drop,
which is `reset(0)`, shows the same order). -/
theorem C6_memory_units_round_trip (m m' : Nat)
    (s : reader_concurrency_semaphore) (hw : s.wait_list = []) :
    (memory_round_trip m m' s).1.resources.memory = s.resources.memory ∧
    (memory_round_trip m m' s).1.resources.count = s.resources.count ∧
    (memory_round_trip m m' s).2.1 = [.consume (m' : Int), .credit (m : Int)] ∧
    (memory_round_trip m m' s).2.2 = [.consume 0, .credit (m' : Int)] := by
  by_cases hm : (m : Int) = 0
  · simp [memory_round_trip, memory_units.construct, memory_units.reset,
      memory_units.drop, reader_concurrency_semaphore.consume_memory,
      reader_concurrency_semaphore.signal_memory,
      reader_concurrency_semaphore.signal, hw, wake_loop, hm]
  · simp [memory_round_trip, memory_units.construct, memory_units.reset,
      memory_units.drop, reader_concurrency_semaphore.consume_memory,
      reader_concurrency_semaphore.signal_memory,
      reader_concurrency_semaphore.signal, hw, wake_loop, hm]
    omega

/-- C6 witness: a concrete round trip (100 bytes reset to 37) on the
rested demonstration semaphore restores its resources and shows the
debit-before-credit order in both traces. -/
theorem C6_witness :
    (memory_round_trip 100 37 demo_sem).1.resources.memory =
      demo_sem.resources.memory ∧
    (memory_round_trip 100 37 demo_sem).1.resources.count =
      demo_sem.resources.count ∧
    (memory_round_trip 100 37 demo_sem).2.1 =
      [.consume (37 : Int), .credit (100 : Int)] ∧
    (memory_round_trip 100 37 demo_sem).2.2 = [.consume 0, .credit (37 : Int)] := by
  have h := C6_memory_units_round_trip 100 37 demo_sem rfl
  exact ⟨h.1, h.2.1, by decide, h.2.2.2⟩

/-- A demonstration semaphore under slot pressure (no free slot) with one
inactive read registered under id 0. -/
def demo_reg : reader_concurrency_semaphore :=
  ⟨⟨0, 10⟩, [], [(0, 7)], 1, 10, "sem", false, 1, 0⟩

/-- C7: the two eviction sites order removal and callback differently.
In `try_evict_one_inactive_read` the source invokes
`it->second->evict()` first and erases the entry afterwards, so during
the callback the registry still contains the entry; in the eviction loop
of `wait_admission` the entry is erased before `evict()` is invoked.
The claim (and the spec) require removal before the callback at both
sites, so the `try_evict_one_inactive_read` order is the divergence. -/
theorem C7_eviction_order :
    (demo_reg.try_evict_one_inactive_read).trace = [.evicted 0, .erased 0] ∧
    (demo_reg.try_evict_one_inactive_read).trace ≠ [.erased 0, .evicted 0] ∧
    (demo_reg.wait_admission no_gain 4 0).trace = [.erased 0, .evicted 0] := by
  decide

/-- A demonstration semaphore for the tracking-file runs: five slots and
1000 bytes available, nothing queued or registered. -/
def demo_dma : reader_concurrency_semaphore :=
  ⟨⟨5, 1000⟩, [], [], 0, 10, "sem", false, 0, 0⟩

/-- C9 counterexample: on a bulk read of `range_size = 512` whose
underlying read returns a 600-byte buffer, the outstanding debit while
the caller holds the buffer is 600 bytes, not 512: the preallocated
512-byte units were captured in the continuation and credited back when
it was destroyed (the `units_dropped 512` event precedes the caller's
buffer drop), so the deleter does not own that charge and the debit of
`range_size` does not persist for as long as the buffer is held. -/
theorem C9_range_charge_not_held :
    (dma_read_bulk true 512 600 demo_dma).state_while_held.resources.memory ≠
      demo_dma.resources.memory - 512 ∧
    (dma_read_bulk true 512 600 demo_dma).state_while_held.resources.memory =
      demo_dma.resources.memory - 600 ∧
    (dma_read_bulk true 512 600 demo_dma).trace =
      [.alloc_units 512, .read_complete 600, .wrap_tracked 600, .units_dropped 512] := by
  decide

/-- C9 amended: with a non-null permit, `dma_read_bulk` allocates
`range_size` units into the continuation's capture before the read
resolves, wraps the returned buffer as a tracked buffer whose deleter
owns a fresh memory charge sized to the returned buffer, and releases
the captured `range_size` units when the continuation is destroyed; so
while the caller holds the buffer the outstanding debit equals the
buffer's size (which is `range_size` exactly when the read returns
`range_size` bytes), and dropping the buffer restores the memory.  With
a null permit the buffer is forwarded unwrapped and no memory is ever
debited. -/
theorem C9_dma_memory_tracking (range_size buf_size : Nat)
    (s : reader_concurrency_semaphore) (hw : s.wait_list = []) :
    (dma_read_bulk true range_size buf_size s).trace =
      [.alloc_units range_size, .read_complete buf_size,
       .wrap_tracked buf_size, .units_dropped range_size] ∧
    (dma_read_bulk true range_size buf_size s).wrapped = true ∧
    (dma_read_bulk true range_size buf_size s).deleter_units =
      ⟨true, (buf_size : Int)⟩ ∧
    (dma_read_bulk true range_size buf_size s).state_while_held.resources.memory =
      s.resources.memory - buf_size ∧
    (dma_read_bulk true range_size buf_size s).state_after_drop.resources.memory =
      s.resources.memory ∧
    (dma_read_bulk false range_size buf_size s).wrapped = false ∧
    (dma_read_bulk false range_size buf_size s).state_while_held = s ∧
    (dma_read_bulk false range_size buf_size s).state_after_drop = s := by
  by_cases hr : (range_size : Int) = 0 <;> by_cases hb : (buf_size : Int) = 0 <;>
    (refine ⟨rfl, rfl, ?_, ?_, ?_, rfl, rfl, rfl⟩ <;>
      simp [dma_read_bulk, make_tracked_temporary_buffer, memory_units.construct,
        memory_units.drop, memory_units.reset,
        reader_concurrency_semaphore.consume_memory,
        reader_concurrency_semaphore.signal_memory,
        reader_concurrency_semaphore.signal, wake_loop, hw, hr, hb]) <;>
    omega

/-- C9 amended witness: the concrete 512-byte read returning a 600-byte
buffer on the rested demonstration semaphore. -/
theorem C9_witness :
    (dma_read_bulk true 512 600 demo_dma).deleter_units = ⟨true, (600 : Int)⟩ ∧
    (dma_read_bulk true 512 600 demo_dma).state_after_drop.resources.memory =
      demo_dma.resources.memory ∧
    (dma_read_bulk false 512 600 demo_dma).state_while_held = demo_dma :=
  ⟨(C9_dma_memory_tracking 512 600 demo_dma rfl).2.2.1,
   (C9_dma_memory_tracking 512 600 demo_dma rfl).2.2.2.2.1,
   (C9_dma_memory_tracking 512 600 demo_dma rfl).2.2.2.2.2.2.1⟩

/-- Total slot count reserved by a list of live permits. -/
def sum_counts (ps : List permit_impl) : Int :=
  (ps.map (fun p => p.base_cost.count)).sum

@[simp] theorem sum_counts_nil : sum_counts [] = 0 := rfl

@[simp] theorem sum_counts_cons (p : permit_impl) (ps : List permit_impl) :
    sum_counts (p :: ps) = p.base_cost.count + sum_counts ps := by
  simp [sum_counts]

@[simp] theorem sum_counts_append (a b : List permit_impl) :
    sum_counts (a ++ b) = sum_counts a + sum_counts b := by
  simp [sum_counts]

/-- Removing the permit at index `i` removes exactly its slot count from
the total. -/
theorem sum_counts_eraseIdx (l : List permit_impl) : ∀ (i : Nat) (h : i < l.length),
    sum_counts l = (l.get ⟨i, h⟩).base_cost.count + sum_counts (l.eraseIdx i) := by
  induction l with
  | nil => intro i h; simp at h
  | cons p rest ih =>
    intro i h
    cases i with
    | zero => simp [List.eraseIdx]
    | succ j =>
      have hj : j < rest.length := by simpa using h
      have hrec := ih j hj
      simp only [List.eraseIdx, sum_counts_cons, List.get_cons_succ]
      omega

/-- Zeroing the permit at index `i` removes exactly its slot count from
the total. -/
theorem sum_counts_set (l : List permit_impl) : ∀ (i : Nat) (h : i < l.length),
    sum_counts (l.set i ⟨⟨0, 0⟩⟩) =
      sum_counts l - (l.get ⟨i, h⟩).base_cost.count := by
  induction l with
  | nil => intro i h; simp at h
  | cons p rest ih =>
    intro i h
    cases i with
    | zero => simp [List.set]
    | succ j =>
      have hj : j < rest.length := by simpa using h
      have hrec := ih j hj
      simp only [List.set, sum_counts_cons, List.get_cons_succ]
      omega

/-- Membership survives removal of another index. -/
theorem mem_of_mem_eraseIdx' {α : Type} (l : List α) : ∀ (i : Nat) (x : α),
    x ∈ l.eraseIdx i → x ∈ l := by
  induction l with
  | nil => intro i x hx; simp [List.eraseIdx] at hx
  | cons a rest ih =>
    intro i x hx
    cases i with
    | zero =>
      simp only [List.eraseIdx] at hx
      exact List.mem_cons_of_mem a hx
    | succ j =>
      simp only [List.eraseIdx, List.mem_cons] at hx
      rcases hx with hx | hx
      · exact hx ▸ List.mem_cons_self a rest
      · exact List.mem_cons_of_mem a (ih j x hx)

/-- An element of a list with index `i` overwritten is an old element or
the written value. -/
theorem mem_of_mem_set' {α : Type} (l : List α) : ∀ (i : Nat) (q x : α),
    x ∈ l.set i q → x ∈ l ∨ x = q := by
  induction l with
  | nil => intro i q x hx; simp [List.set] at hx
  | cons a rest ih =>
    intro i q x hx
    cases i with
    | zero =>
      simp only [List.set, List.mem_cons] at hx
      rcases hx with hx | hx
      · exact Or.inr hx
      · exact Or.inl (List.mem_cons_of_mem a hx)
    | succ j =>
      simp only [List.set, List.mem_cons] at hx
      rcases hx with hx | hx
      · exact Or.inl (hx ▸ List.mem_cons_self a rest)
      · rcases ih j q x hx with h | h
        · exact Or.inl (List.mem_cons_of_mem a h)
        · exact Or.inr h

/-- The slot-dimension invariant of claim C8: the available slot count is
non-negative, and together with the slots reserved by live permits it
accounts exactly for the capacity; permits and queued waiters reserve
non-negative slot counts. -/
def slot_inv (cap : Int) (fs : machine_state) : Prop :=
  0 ≤ fs.sem.resources.count ∧
  fs.sem.resources.count + sum_counts fs.perms = cap ∧
  (∀ p ∈ fs.perms, 0 ≤ p.base_cost.count) ∧
  (∀ e ∈ fs.sem.wait_list, 0 ≤ e.res.count)

/-- `signal` preserves the slot invariant: the credited `r` is the base
cost of a permit being returned, so the right-hand accounting moves it
from the permit side to the available side, and the wake loop moves
admitted waiters back. -/
theorem signal_preserves_slot_inv (cap : Int)
    (s : reader_concurrency_semaphore) (ps : List permit_impl)
    (r : reader_resources)
    (h0 : 0 ≤ s.resources.count)
    (hc : s.resources.count + (r.count + sum_counts ps) = cap)
    (hp : ∀ p ∈ ps, 0 ≤ p.base_cost.count)
    (hw : ∀ e ∈ s.wait_list, 0 ≤ e.res.count)
    (hr : 0 ≤ r.count) :
    slot_inv cap ⟨(s.signal r).1, ps ++ (s.signal r).2.map Prod.snd⟩ := by
  have h0' : 0 ≤ (s.resources + r).count := by simp; omega
  have hA := wake_loop_decomp s.wait_list (s.resources + r)
  have hB := wake_loop_res s.wait_list (s.resources + r)
  have hC := wake_loop_base_cost s.wait_list (s.resources + r)
  have hD := wake_loop_count_nonneg s.wait_list (s.resources + r) h0'
  have hmem_adm : ∀ x ∈ (wake_loop (s.resources + r) s.wait_list).2.2,
      x.1 ∈ s.wait_list := by
    intro x hx
    rw [← hA]
    exact List.mem_append_left _ (List.mem_map_of_mem Prod.fst hx)
  have hmem_rem : ∀ e ∈ (wake_loop (s.resources + r) s.wait_list).2.1,
      e ∈ s.wait_list := by
    intro e he
    rw [← hA]
    exact List.mem_append_right _ he
  have hsum : sum_counts ((wake_loop (s.resources + r) s.wait_list).2.2.map Prod.snd) =
      (sum_res ((wake_loop (s.resources + r) s.wait_list).2.2.map (fun x => x.1.res))).count := by
    rw [sum_res_count, sum_counts]
    rw [List.map_map, List.map_map]
    apply congrArg List.sum
    apply List.map_congr_left
    intro x hx
    simp [hC x hx]  -- hmm signature
  refine ⟨?_, ?_, ?_, ?_⟩
  · simpa [reader_concurrency_semaphore.signal] using hD
  · have hcnt : ((wake_loop (s.resources + r) s.wait_list).1).count =
        (s.resources + r).count -
          (sum_res ((wake_loop (s.resources + r) s.wait_list).2.2.map (fun x => x.1.res))).count := by
      rw [hB]; simp
    simp only [reader_concurrency_semaphore.signal, sum_counts_append]
    simp only [reader_concurrency_semaphore.signal] at hsum ⊢
    rw [hsum] at *
    simp at hcnt ⊢
    omega
  · intro p hpmem
    rcases List.mem_append.mp hpmem with hin | hin
    · exact hp p hin
    · rcases List.mem_map.mp hin with ⟨x, hx, hxe⟩
      have hb := hC x hx
      have hm := hmem_adm x hx
      rw [← hxe, hb]
      exact hw x.1 hm
  · intro e he
    simp only [reader_concurrency_semaphore.signal] at he
    exact hw e (hmem_rem e he)

/-- `apply_step` on a `wait_admission` step, written without the match on
the result: the state is always the admission outcome's state, and the
live permits gain the ready permit when one is issued. -/
theorem apply_step_wait_admission (gain : Nat → reader_resources)
    (m d : Nat) (fs : machine_state) :
    apply_step gain (.wait_admission m d) fs =
      ⟨(fs.sem.wait_admission gain m d).state,
       fs.perms ++ (match (fs.sem.wait_admission gain m d).result with
         | .ready p => [p]
         | _ => [])⟩ := by
  simp only [apply_step]
  rcases hres : (fs.sem.wait_admission gain m d).result with msg | p <;> simp [hres]

/-- Case analysis of `wait_admission` under the zero eviction credit: the
call rejects with an unchanged state, or admits (debiting one slot and
the requested memory, having verified the request fits), or enqueues the
request with the resources untouched. -/
theorem wait_admission_no_gain_cases (m d : Nat)
    (s : reader_concurrency_semaphore) :
    ((s.wait_admission no_gain m d).state = s ∧
      (s.wait_admission no_gain m d).result =
        .overload (s.name ++ ": restricted mutation reader queue overload")) ∨
    ((s.wait_admission no_gain m d).result = .ready ⟨⟨1, (m : Int)⟩⟩ ∧
      (s.wait_admission no_gain m d).state.resources = s.resources - ⟨1, (m : Int)⟩ ∧
      may_proceed s.resources ⟨1, (m : Int)⟩ = true ∧
      (s.wait_admission no_gain m d).state.wait_list = s.wait_list) ∨
    ((s.wait_admission no_gain m d).result = .queued ∧
      (s.wait_admission no_gain m d).state.resources = s.resources ∧
      (s.wait_admission no_gain m d).state.wait_list =
        s.wait_list ++ [⟨⟨1, (m : Int)⟩, d⟩]) := by
  by_cases hq : s.max_queue_length ≤ s.wait_list.length
  · left
    have h := C2_queue_overload no_gain m d s hq
    exact ⟨h.2.1, h.1⟩
  · have hres := evict_loop_no_gain_res ⟨1, (m : Int)⟩ s.inactive_reads s.resources
    by_cases hmp : may_proceed s.resources ⟨1, (m : Int)⟩ = true
    · right; left
      refine ⟨?_, ?_, hmp, ?_⟩ <;>
        simp [reader_concurrency_semaphore.wait_admission, hq, hres, hmp]
    · right; right
      have hmp' : may_proceed s.resources ⟨1, (m : Int)⟩ = false :=
        Bool.eq_false_iff.mpr hmp
      refine ⟨?_, ?_, ?_⟩ <;>
        simp [reader_concurrency_semaphore.wait_admission, hq, hres, hmp']

/-- Each guarded exposed operation preserves the slot invariant (with the
zero eviction credit: the permit drops triggered by eviction callbacks
are their own `drop_permit` steps). -/
theorem apply_step_slot_inv (cap : Int) (st : step) (fs : machine_state)
    (h : slot_inv cap fs) (hg : step_guard st fs = true) :
    slot_inv cap (apply_step no_gain st fs) := by
  obtain ⟨h0, hc, hp, hw⟩ := h
  cases st with
  | wait_admission m d =>
    rw [apply_step_wait_admission]
    rcases wait_admission_no_gain_cases m d fs.sem with
      ⟨hs, hres⟩ | ⟨hres, hresr, hmp, hwl⟩ | ⟨hres, hresr, hwl⟩
    · simp only [hres]
      rw [hs]
      exact ⟨h0, by simpa using hc, fun p hpm => hp p (by simpa using hpm), hw⟩
    · simp only [hres]
      have h1 : (1 : Int) ≤ fs.sem.resources.count :=
        ((may_proceed_iff _ _).mp hmp).1
      refine ⟨?_, ?_, ?_, ?_⟩
      · rw [hresr]; simp; omega
      · rw [hresr]; simp; omega
      · intro p hpm
        rcases List.mem_append.mp hpm with hin | hin
        · exact hp p hin
        · simp at hin
          rw [hin]
          simp
      · intro e he
        rw [hwl] at he
        exact hw e he
    · simp only [hres]
      refine ⟨?_, ?_, ?_, ?_⟩
      · rw [hresr]; exact h0
      · rw [hresr]; simpa using hc
      · intro p hpm
        rcases List.mem_append.mp hpm with hin | hin
        · exact hp p hin
        · simp at hin
      · intro e he
        rw [hwl] at he
        rcases List.mem_append.mp he with hin | hin
        · exact hw e hin
        · simp at hin
          rw [hin]
          simp
  | consume_resources r =>
    simp only [step_guard, Bool.and_eq_true, decide_eq_true_eq] at hg
    obtain ⟨hg1, hg2⟩ := hg
    refine ⟨?_, ?_, ?_, ?_⟩
    · simp [apply_step, reader_concurrency_semaphore.consume_resources]; omega
    · simp [apply_step, reader_concurrency_semaphore.consume_resources]; omega
    · intro p hpm
      simp only [apply_step, reader_concurrency_semaphore.consume_resources] at hpm
      rcases List.mem_append.mp hpm with hin | hin
      · exact hp p hin
      · simp at hin
        rw [hin]
        exact hg1
    · intro e he
      simp only [apply_step, reader_concurrency_semaphore.consume_resources] at he
      exact hw e he
  | drop_permit i =>
    simp only [apply_step]
    split
    · rename_i hlt
      have hmem := List.get_mem fs.perms i hlt
      have hsum := sum_counts_eraseIdx fs.perms i hlt
      exact signal_preserves_slot_inv cap fs.sem (fs.perms.eraseIdx i)
        (fs.perms.get ⟨i, hlt⟩).base_cost h0 (by omega)
        (fun p hq => hp p (mem_of_mem_eraseIdx' fs.perms i p hq)) hw
        (hp _ hmem)
    · exact ⟨h0, hc, hp, hw⟩
  | release_permit i =>
    simp only [apply_step]
    split
    · rename_i hlt
      have hmem := List.get_mem fs.perms i hlt
      have hsum := sum_counts_set fs.perms i hlt
      have := signal_preserves_slot_inv cap fs.sem (fs.perms.set i ⟨⟨0, 0⟩⟩)
        (fs.perms.get ⟨i, hlt⟩).base_cost h0 (by omega)
        (fun p hq => by
          rcases mem_of_mem_set' fs.perms i ⟨⟨0, 0⟩⟩ p hq with hin | hin
          · exact hp p hin
          · simp [hin]) hw
        (hp _ hmem)
      exact this
    · exact ⟨h0, hc, hp, hw⟩
  | consume_memory m =>
    exact ⟨by simpa [apply_step, reader_concurrency_semaphore.consume_memory] using h0,
      by simpa [apply_step, reader_concurrency_semaphore.consume_memory] using hc,
      by simpa [apply_step] using hp,
      by simpa [apply_step, reader_concurrency_semaphore.consume_memory] using hw⟩
  | signal_memory m =>
    have := signal_preserves_slot_inv cap fs.sem fs.perms ⟨0, (m : Int)⟩
      h0 (by simpa using hc) hp hw (by simp)
    simpa [apply_step, machine_state.do_signal] using this
  | raw_signal r =>
    simp [step_guard] at hg
  | register_inactive tag =>
    have hkeep : (fs.sem.register_inactive_read tag).state.resources = fs.sem.resources ∧
        (fs.sem.register_inactive_read tag).state.wait_list = fs.sem.wait_list := by
      unfold reader_concurrency_semaphore.register_inactive_read
      split <;> exact ⟨rfl, rfl⟩
    refine ⟨?_, ?_, by simpa [apply_step] using hp, ?_⟩
    · simpa [apply_step, hkeep.1] using h0
    · simpa [apply_step, hkeep.1] using hc
    · simpa [apply_step, hkeep.2] using hw
  | unregister_inactive id =>
    have hkeep : (fs.sem.unregister_inactive_read id).2.resources = fs.sem.resources ∧
        (fs.sem.unregister_inactive_read id).2.wait_list = fs.sem.wait_list := by
      unfold reader_concurrency_semaphore.unregister_inactive_read
      split <;> exact ⟨rfl, rfl⟩
    refine ⟨?_, ?_, by simpa [apply_step] using hp, ?_⟩
    · simpa [apply_step, hkeep.1] using h0
    · simpa [apply_step, hkeep.1] using hc
    · simpa [apply_step, hkeep.2] using hw
  | try_evict =>
    have hkeep : (fs.sem.try_evict_one_inactive_read).state.resources = fs.sem.resources ∧
        (fs.sem.try_evict_one_inactive_read).state.wait_list = fs.sem.wait_list := by
      unfold reader_concurrency_semaphore.try_evict_one_inactive_read
      split <;> exact ⟨rfl, rfl⟩
    refine ⟨?_, ?_, by simpa [apply_step] using hp, ?_⟩
    · simpa [apply_step, hkeep.1] using h0
    · simpa [apply_step, hkeep.1] using hc
    · simpa [apply_step, hkeep.2] using hw
  | timeout_waiter i =>
    refine ⟨by simpa [apply_step] using h0, by simpa [apply_step] using hc,
      by simpa [apply_step] using hp, ?_⟩
    intro e he
    simp only [apply_step] at he
    exact hw e (mem_of_mem_eraseIdx' fs.sem.wait_list i e he)

/-- The implicit invariant of claim C10: waiters queued implies an empty
inactive-read registry. -/
def waiters_inv (s : reader_concurrency_semaphore) : Prop :=
  s.wait_list ≠ [] → s.inactive_reads = []

/-- `signal` only removes waiters and never touches the registry, so it
preserves the C10 invariant. -/
theorem signal_waiters_inv (s : reader_concurrency_semaphore)
    (r : reader_resources) (h : waiters_inv s) : waiters_inv (s.signal r).1 := by
  intro hne
  by_cases hnil : s.wait_list = []
  · exfalso
    apply hne
    show (wake_loop (s.resources + r) s.wait_list).2.1 = []
    rw [hnil]
    rfl
  · exact h hnil

/-- `wait_admission` preserves the C10 invariant for any eviction credit:
a request is enqueued only after the eviction loop has drained the whole
registry. -/
theorem wait_admission_waiters_inv (gain : Nat → reader_resources)
    (m d : Nat) (s : reader_concurrency_semaphore) (h : waiters_inv s) :
    waiters_inv (s.wait_admission gain m d).state := by
  by_cases hq : s.max_queue_length ≤ s.wait_list.length
  · rw [(C2_queue_overload gain m d s hq).2.1]
    exact h
  · by_cases hmp : may_proceed
        (evict_loop gain ⟨1, (m : Int)⟩ s.resources s.inactive_reads).1
        ⟨1, (m : Int)⟩ = true
    · have hwl : (s.wait_admission gain m d).state.wait_list = s.wait_list := by
        simp [reader_concurrency_semaphore.wait_admission, hq, hmp]
      have hir : (s.wait_admission gain m d).state.inactive_reads =
          (evict_loop gain ⟨1, (m : Int)⟩ s.resources s.inactive_reads).2.1 := by
        simp [reader_concurrency_semaphore.wait_admission, hq, hmp]
      intro hne
      rw [hwl] at hne
      rw [hir, h hne]
      rfl
    · have hir : (s.wait_admission gain m d).state.inactive_reads =
          (evict_loop gain ⟨1, (m : Int)⟩ s.resources s.inactive_reads).2.1 := by
        simp [reader_concurrency_semaphore.wait_admission, hq, hmp]
      intro _
      rw [hir]
      rcases evict_loop_exit gain ⟨1, (m : Int)⟩ s.inactive_reads s.resources with
        hnil | hfit
      · exact hnil
      · exact absurd hfit hmp

/-- `register_inactive_read` preserves the C10 invariant: it inserts only
when no waiter is queued. -/
theorem register_waiters_inv (tag : Nat) (s : reader_concurrency_semaphore)
    (h : waiters_inv s) : waiters_inv (s.register_inactive_read tag).state := by
  unfold reader_concurrency_semaphore.register_inactive_read
  by_cases hq : s.wait_list.isEmpty = true
  · have hnil : s.wait_list = [] := by
      cases hl : s.wait_list with
      | nil => rfl
      | cons a l => rw [hl] at hq; simp [List.isEmpty] at hq
    simp only [hq, if_true]
    intro hne
    exact absurd hnil hne
  · have hq' : s.wait_list.isEmpty = false := Bool.eq_false_iff.mpr hq
    simp only [hq', Bool.false_eq_true, if_false]
    intro hne
    exact h hne

/-- Every exposed operation preserves the C10 invariant. -/
theorem apply_step_waiters_inv (gain : Nat → reader_resources) (st : step)
    (fs : machine_state) (h : waiters_inv fs.sem) :
    waiters_inv (apply_step gain st fs).sem := by
  cases st with
  | wait_admission m d =>
    rw [apply_step_wait_admission]
    exact wait_admission_waiters_inv gain m d fs.sem h
  | consume_resources r => exact fun hne => h hne
  | drop_permit i =>
    simp only [apply_step]
    split
    · exact signal_waiters_inv fs.sem _ h
    · exact h
  | release_permit i =>
    simp only [apply_step]
    split
    · exact signal_waiters_inv fs.sem _ h
    · exact h
  | consume_memory m => exact fun hne => h hne
  | signal_memory m => exact signal_waiters_inv fs.sem _ h
  | raw_signal r => exact signal_waiters_inv fs.sem _ h
  | register_inactive tag => exact register_waiters_inv tag fs.sem h
  | unregister_inactive id =>
    simp only [apply_step]
    unfold reader_concurrency_semaphore.unregister_inactive_read
    split
    · intro hne
      show List.filter _ fs.sem.inactive_reads = []
      rw [h hne]
      rfl
    · exact h
  | try_evict =>
    simp only [apply_step]
    unfold reader_concurrency_semaphore.try_evict_one_inactive_read
    split
    · exact h
    · rename_i id tag rest heq
      intro hne
      have := h hne
      rw [heq] at this
      exact absurd this (by simp)
  | timeout_waiter i =>
    intro hne
    apply h
    intro hnil
    apply hne
    show fs.sem.wait_list.eraseIdx i = []
    rw [hnil]
    rfl

/-- The C10 invariant holds along every run of exposed operations. -/
theorem run_steps_waiters_inv (gain : Nat → reader_resources)
    (steps : List step) : ∀ fs : machine_state, waiters_inv fs.sem →
    waiters_inv (run_steps gain steps fs).sem := by
  induction steps with
  | nil => intro fs h; exact h
  | cons st rest ih =>
    intro fs h
    exact ih _ (apply_step_waiters_inv gain st fs h)

/-- C10: in every state reachable from a freshly constructed semaphore by
any sequence of the exposed operations (for any eviction credit of the
callback re-entry), a non-empty wait list implies an empty inactive-read
registry: `wait_admission` enqueues only after draining the registry and
`register_inactive_read` never inserts while waiters exist. -/
theorem C10_waiters_exclude_inactive (gain : Nat → reader_resources)
    (cap : reader_resources) (maxq : Nat) (nm : String) (pts : Bool)
    (steps : List step)
    (hne : (run_steps gain steps (init_state cap maxq nm pts)).sem.wait_list ≠ []) :
    (run_steps gain steps (init_state cap maxq nm pts)).sem.inactive_reads = [] :=
  run_steps_waiters_inv gain steps (init_state cap maxq nm pts)
    (fun hcontra => absurd rfl hcontra) hne

/-- C10 witness: a run that leaves one waiter queued indeed has an empty
registry. -/
theorem C10_witness :
    (run_steps no_gain [.wait_admission 1 0]
        (init_state ⟨0, 0⟩ 5 "sem" false)).sem.wait_list ≠ [] ∧
    (run_steps no_gain [.wait_admission 1 0]
        (init_state ⟨0, 0⟩ 5 "sem" false)).sem.inactive_reads = [] :=
  ⟨by decide, C10_waiters_exclude_inactive no_gain ⟨0, 0⟩ 5 "sem" false
    [.wait_admission 1 0] (by decide)⟩

/-- The slot invariant holds along every guarded run. -/
theorem run_guarded_slot_inv (cap : Int) (steps : List step) :
    ∀ (fs out : machine_state), slot_inv cap fs →
    run_guarded no_gain steps fs = some out → slot_inv cap out := by
  induction steps with
  | nil =>
    intro fs out h hr
    simp only [run_guarded, Option.some.injEq] at hr
    rw [← hr]
    exact h
  | cons st rest ih =>
    intro fs out h hr
    simp only [run_guarded] at hr
    by_cases hg : step_guard st fs = true
    · rw [if_pos hg] at hr
      exact ih _ out (apply_step_slot_inv cap st fs h hg) hr
    · rw [if_neg hg] at hr
      exact absurd hr (by simp)

/-- C8 counterexample: with the operations taken literally as the claim
lists them — an unguarded `consume_resources` and a bare `signal` — the
slot count leaves `[0, capacity.count]`: on a one-slot semaphore,
`consume_resources({2, 0})` drives the count to −1 and a bare
`signal({1, 0})` drives it to 2. -/
theorem C8_counterexample :
    (run_steps no_gain [.consume_resources ⟨2, 0⟩]
        (init_state ⟨1, 100⟩ 10 "sem" false)).sem.resources.count < 0 ∧
    1 < (run_steps no_gain [.raw_signal ⟨1, 0⟩]
        (init_state ⟨1, 100⟩ 10 "sem" false)).sem.resources.count := by
  decide

/-- C8 amended: in every state reachable from a freshly constructed
semaphore by a sequence of the exposed operations in which
`consume_resources(r)` is only called under its out-of-band-reservation
contract (`0 ≤ r.count ≤ _resources.count` at the call) and resources
are credited only through permit release/drop and memory-units credits
(never a bare `signal` with an arbitrary argument), the slot count
satisfies `0 ≤ _resources.count ≤ capacity.count`. -/
theorem C8_slot_count_bounds (cap : reader_resources) (maxq : Nat)
    (nm : String) (pts : Bool) (steps : List step) (out : machine_state)
    (hcap : 0 ≤ cap.count)
    (hrun : run_guarded no_gain steps (init_state cap maxq nm pts) = some out) :
    0 ≤ out.sem.resources.count ∧ out.sem.resources.count ≤ cap.count := by
  have hinit : slot_inv cap.count (init_state cap maxq nm pts) := by
    refine ⟨hcap, by simp [init_state], ?_, ?_⟩ <;> simp [init_state]
  have hinv := run_guarded_slot_inv cap.count steps _ out hinit hrun
  obtain ⟨h0, hc, hp, _⟩ := hinv
  have hs : 0 ≤ sum_counts out.perms := by
    apply List.sum_nonneg
    intro x hx
    obtain ⟨p, hpm, hpe⟩ := List.mem_map.mp hx
    rw [← hpe]
    exact hp p hpm
  exact ⟨h0, by omega⟩

/-- A guarded demonstration run: admit a reader, consume a covered slot
out of band, drop the first permit, credit some memory. -/
def c8_demo_steps : List step :=
  [.wait_admission 10 0, .consume_resources ⟨1, 5⟩, .drop_permit 0, .signal_memory 3]

/-- C8 witness: the demonstration run on a two-slot semaphore passes its
guards and ends with the slot count inside `[0, 2]`. -/
theorem C8_witness :
    0 ≤ ((run_guarded no_gain c8_demo_steps (init_state ⟨2, 100⟩ 10 "sem" false)).getD
        (init_state ⟨2, 100⟩ 10 "sem" false)).sem.resources.count ∧
    ((run_guarded no_gain c8_demo_steps (init_state ⟨2, 100⟩ 10 "sem" false)).getD
        (init_state ⟨2, 100⟩ 10 "sem" false)).sem.resources.count ≤ (2 : Int) :=
  C8_slot_count_bounds ⟨2, 100⟩ 10 "sem" false c8_demo_steps _ (by decide) (by rfl)
